import Mathlib

/-!
# Verification of the avatar animation retargeting and playback controller

Shallow embedding of `src/client/src/components/AvatarViewer.tsx`:

* `retargetAnimation` embeds the pure clip-retargeting function
  (lines 16-48 of the source).
* `onAnimationLoaded` embeds the per-animation load-completion handler
  (lines 110-143): register the retargeted clip's action under its name,
  count the successful load, and on the third successful load select and
  start the `"walking"` action and clear the loading flag.
* `playAnimation` embeds the switch-to-animation-by-name handler
  (lines 191-205).

Modelling conventions:

* JavaScript strings that undergo prefix/suffix operations (track names) are
  modelled as lists of characters (`JSString`); `endsWith`, `startsWith`, and
  anchored prefix removal (`replace(/^mixamorig/, '')`) become the
  corresponding list operations.  Registry keys (`"walking"`, `"sitting"`,
  `"standing_up"`) undergo only equality tests and are kept as Lean `String`s.
* `Float32Array` sample data (key times and values) is carried opaquely: the
  retargeter and controller never read or compute with samples, they only pass
  the arrays through, so the scalar type is modelled as `Int`.
* The concrete keyframe-track class captured via `track.constructor` is
  modelled as a `TrackKind` tag over the closed set of track classes in use.
* The external mixer's `AnimationAction` objects are modelled by the
  observables the code relies on: `play()` sets the `playing` flag, `stop()`
  clears it, `reset()` rewinds the playback position (`time`) to frame zero,
  and `mixer.clipAction(clip)` yields a fresh non-playing action at frame
  zero.  `actionsRef` (a plain JS object used only through keyed access) is
  modelled as a function from names to optional actions, and
  `currentActionRef` — which is only ever assigned actions freshly read from
  `actionsRef` — is modelled by the registry key it was read from.
-/

/-- JS strings, as lists of characters (see module docstring). -/
abbrev JSString := List Char

/-- JS `String.prototype.endsWith`. -/
def jsEndsWith (s suf : JSString) : Bool := suf.isSuffixOf s

/-- JS `String.prototype.startsWith`. -/
def jsStartsWith (s pre : JSString) : Bool := pre.isPrefixOf s

/-- The fixed source-skeleton namespace `"mixamorig"` of the regex
`/^mixamorig/` at line 29 of the source. -/
def mixamoNs : JSString := "mixamorig".data

/-- `name.replace(/^mixamorig/, '')`: remove the fixed source-namespace at the
start of the name, no-op when absent (source line 29). -/
def stripMixamoNs (s : JSString) : JSString :=
  if jsStartsWith s mixamoNs then s.drop mixamoNs.length else s

/-- The concrete keyframe-track class held in `track.constructor`
(`THREE.QuaternionKeyframeTrack`, `THREE.VectorKeyframeTrack`,
`THREE.NumberKeyframeTrack`). -/
inductive TrackKind where
  | quaternion
  | vector
  | number
deriving DecidableEq

/-- One animated channel: `THREE.KeyframeTrack` as used by the source —
a name of the form `<bone>.<property>`, the concrete class, and the key time
and value arrays (carried opaquely, see module docstring). -/
structure KeyframeTrack where
  name : JSString
  kind : TrackKind
  times : List Int
  values : List Int
deriving DecidableEq

/-- `THREE.AnimationClip`: a named, time-bounded ordered collection of
tracks. -/
structure AnimationClip where
  name : JSString
  duration : Int
  tracks : List KeyframeTrack
deriving DecidableEq

/-- The per-track body of the `for` loop of `retargetAnimation`
(source lines 19-45), processing the track list in order: drop tracks whose
name ends in `.position` or `.scale`, otherwise rebuild the track through its
own constructor with the namespace-stripped name and the same time and value
arrays. -/
def retargetTracks : List KeyframeTrack → List KeyframeTrack
  | [] => []
  | track :: rest =>
    if jsEndsWith track.name ".position".data || jsEndsWith track.name ".scale".data then
      retargetTracks rest
    else
      { name := stripMixamoNs track.name, kind := track.kind,
        times := track.times, values := track.values } :: retargetTracks rest

/-- `retargetAnimation` (source lines 16-48): a new clip with the same name
and duration and the retargeted tracks. -/
def retargetAnimation (clip : AnimationClip) : AnimationClip :=
  { name := clip.name, duration := clip.duration, tracks := retargetTracks clip.tracks }

/-- A mixer-bound `THREE.AnimationAction`, by its observables: the underlying
clip, whether it is currently playing/active, and its playback position. -/
structure AnimAction where
  clip : AnimationClip
  playing : Bool
  time : Int
deriving DecidableEq

/-- `mixer.clipAction(clip)` (source line 117): a fresh action, not playing,
at frame zero. -/
def clipAction (c : AnimationClip) : AnimAction :=
  { clip := c, playing := false, time := 0 }

/-- The mutable state of the viewer's animation controller: whether the mixer
has been constructed (`mixerRef`), the action registry (`actionsRef`), the
current action (`currentActionRef`, as the registry key it was read from),
the count of completed animation loads (`loadedAnimations`), and the loading
indicator (`isLoading`). -/
@[ext]
structure ViewerState where
  mixerBuilt : Bool
  actions : String → Option AnimAction
  current : Option String
  loadedAnimations : Nat
  isLoading : Bool

/-- `totalAnimations` (source line 111). -/
def totalAnimations : Nat := 3

/-- `onAnimationLoaded` (source lines 113-130): take the first animation of
the loaded asset if any — otherwise do nothing — retarget it, register its
action under `name`, count the load, and when the count reaches
`totalAnimations` start the `"walking"` action (when registered) and clear
the loading flag. -/
def onAnimationLoaded (name : String) (animations : List AnimationClip)
    (st : ViewerState) : ViewerState :=
  match animations.head? with
  | none => st
  | some animation =>
    let retargetedClip := retargetAnimation animation
    let action := clipAction retargetedClip
    let actions1 : String → Option AnimAction :=
      fun n => if n = name then some action else st.actions n
    let loaded1 := st.loadedAnimations + 1
    if loaded1 = totalAnimations then
      match actions1 "walking" with
      | some w =>
        { st with
          actions := fun n => if n = "walking" then some { w with playing := true } else actions1 n,
          current := some "walking",
          loadedAnimations := loaded1,
          isLoading := false }
      | none =>
        { st with actions := actions1, loadedAnimations := loaded1, isLoading := false }
    else
      { st with actions := actions1, loadedAnimations := loaded1 }

/-- `playAnimation` (source lines 191-205): bail out when the mixer has not
been constructed; otherwise stop the current action if any, and if the
requested name is registered, make it current, reset it to frame zero and
play it. -/
def playAnimation (name : String) (st : ViewerState) : ViewerState :=
  if st.mixerBuilt = false then st
  else
    let st1 :=
      match st.current with
      | some cur =>
        { st with
          actions := fun n =>
            if n = cur then (st.actions cur).map (fun (a : AnimAction) => { a with playing := false })
            else st.actions n }
      | none => st
    match st1.actions name with
    | some a =>
      { st1 with
        actions := fun n =>
          if n = name then some { a with playing := true, time := 0 } else st1.actions n,
        current := some name }
    | none => st1

/-- The three expected animation identifiers (source lines 8-12, 133-143). -/
def threeNames : List String := ["walking", "sitting", "standing_up"]

/-- Controller state right after the mixer is constructed (source lines
104-111): mixer built, empty registry, no current action, zero loads counted,
loading indicator set. -/
def initState : ViewerState :=
  { mixerBuilt := true, actions := fun _ => none, current := none,
    loadedAnimations := 0, isLoading := true }

/-- Run a sequence of animation-load completions.  `clips n` is the (fixed)
animation list carried by the asset loaded for name `n`, and `order` is the
arrival order of the completions.  The component issues one one-shot load per
expected name (source lines 133-143), so in every execution `order` is a
duplicate-free list of names drawn from `threeNames`. -/
def runLoads (clips : String → List AnimationClip) (order : List String)
    (st : ViewerState) : ViewerState :=
  order.foldl (fun s n => onAnimationLoaded n (clips n) s) st

/-- The names whose load completions actually register an action: those whose
asset contains at least one animation clip. -/
def succNames (clips : String → List AnimationClip) (order : List String) : List String :=
  order.filter (fun n => !(clips n).isEmpty)

/-- The registry entry that `runLoads` produces for name `n`, in terms of the
list `succ` of successfully registered names: absent unless `n`'s load
succeeded, otherwise the action of the retargeted first clip, at frame zero,
playing exactly when the run reached the ready transition and `n` is the
default `"walking"` action. -/
def regEntry (clips : String → List AnimationClip) (succ : List String)
    (n : String) : Option AnimAction :=
  if n ∈ succ then
    ((clips n).head?).map (fun c =>
      { clip := retargetAnimation c,
        playing := decide (succ.length = 3 ∧ n = "walking"),
        time := 0 })
  else none

/-- Concrete clip used to witness the retargeting claims that carry a
hypothesis. -/
def c3Clip : AnimationClip :=
  { name := "walk".data, duration := 2,
    tracks :=
      [ { name := "mixamorigHips.quaternion".data, kind := TrackKind.quaternion,
          times := [0, 1], values := [0, 0, 0, 1, 0, 0, 0, 1] },
        { name := "mixamorigHips.position".data, kind := TrackKind.vector,
          times := [0], values := [1, 2, 3] },
        { name := "Spine.quaternion".data, kind := TrackKind.quaternion,
          times := [0], values := [0, 0, 0, 1] },
        { name := "mixamorigLeftLeg.scale".data, kind := TrackKind.vector,
          times := [0], values := [1, 1, 1] } ] }

/-- Concrete prefix-free clip witnessing C5. -/
def c5Clip : AnimationClip :=
  { name := "sit".data, duration := 3,
    tracks :=
      [ { name := "Hips.quaternion".data, kind := TrackKind.quaternion,
          times := [0], values := [0, 0, 0, 1] },
        { name := "Hips.position".data, kind := TrackKind.vector,
          times := [0], values := [4, 5, 6] },
        { name := "Spine.quaternion".data, kind := TrackKind.quaternion,
          times := [0, 1], values := [0, 0, 0, 1, 0, 1, 0, 0] } ] }

/-- Concrete controller state for the C1 counterexample: mixer built, only
`"walking"` registered and currently playing. -/
def c1State : ViewerState :=
  { mixerBuilt := true,
    actions := fun n =>
      if n = "walking" then
        some { clip := { name := "walk".data, duration := 1, tracks := [] },
               playing := true, time := 5 }
      else none,
    current := some "walking",
    loadedAnimations := 1,
    isLoading := true }

/-- At-most-the-current-action-playing: every playing action in the registry
is the tracked current one.  It holds in `initState` and is preserved by
`playAnimation`, but it is NOT preserved by `onAnimationLoaded`: the ready
transition (source lines 123-125) plays the default `"walking"` action
without stopping an already user-selected one — see the C8 counterexample
`switchTo_two_actions_playing`. -/
def OnlyCurrentPlaying (st : ViewerState) : Prop :=
  ∀ m b, st.actions m = some b → b.playing = true → st.current = some m

/-- A minimal clip for the C8 counterexample trace. -/
def c8Clip : AnimationClip :=
  { name := "anim".data, duration := 1, tracks := [] }

/-- Reachable state for the C8 counterexample, built by running the
component's own operations from the initial state: the walking and sitting
loads complete, the user clicks Sitting while the third load is pending, and
then the standing-up load completes — whereupon the ready transition plays
`"walking"` without stopping `"sitting"`, leaving two actions playing. -/
def c8CexState : ViewerState :=
  onAnimationLoaded "standing_up" [c8Clip]
    (playAnimation "sitting"
      (onAnimationLoaded "sitting" [c8Clip]
        (onAnimationLoaded "walking" [c8Clip] initState)))

/-- Concrete walking action (playing, mid-clip) for the C8 witness state. -/
def c8WalkAction : AnimAction :=
  { clip := { name := "walk".data, duration := 1, tracks := [] }, playing := true, time := 7 }

/-- Concrete sitting action (registered, idle) for the C8 witness state. -/
def c8SitAction : AnimAction :=
  { clip := { name := "sit".data, duration := 2, tracks := [] }, playing := false, time := 0 }

/-- Concrete state for the C8 witness: both `"walking"` and `"sitting"`
registered, `"walking"` active and playing. -/
def c8State : ViewerState :=
  { mixerBuilt := true,
    actions := fun n =>
      if n = "walking" then some c8WalkAction
      else if n = "sitting" then some c8SitAction else none,
    current := some "walking",
    loadedAnimations := 2,
    isLoading := true }

/-- Concrete one-track clip for the C6 witness. -/
def c6Clip : AnimationClip :=
  { name := "anim".data, duration := 1,
    tracks := [ { name := "mixamorigHips.quaternion".data, kind := TrackKind.quaternion,
                  times := [0], values := [0, 0, 0, 1] } ] }

/-- Fixed raw clips for the C6 witness: every load yields `c6Clip`. -/
def c6Clips : String → List AnimationClip := fun _ => [c6Clip]

/-- Concrete one-track clip for the C7 witness. -/
def c7Clip : AnimationClip :=
  { name := "anim".data, duration := 1,
    tracks := [ { name := "mixamorigHips.quaternion".data, kind := TrackKind.quaternion,
                  times := [0], values := [0, 0, 0, 1] } ] }

/-- Clips for the C7 witness: every load yields `c7Clip`. -/
def c7Clips : String → List AnimationClip := fun _ => [c7Clip]

/-- Concrete one-track clip for the C9 witness. -/
def c9Clip : AnimationClip :=
  { name := "anim".data, duration := 1,
    tracks := [ { name := "mixamorigHips.quaternion".data, kind := TrackKind.quaternion,
                  times := [0], values := [0, 0, 0, 1] } ] }

/-- Clips for the C9 witness: every load yields `c9Clip`. -/
def c9Clips : String → List AnimationClip := fun _ => [c9Clip]

/-- Concrete one-track clip for the C10 witness. -/
def c10Clip : AnimationClip :=
  { name := "anim".data, duration := 1,
    tracks := [ { name := "mixamorigHips.quaternion".data, kind := TrackKind.quaternion,
                  times := [0], values := [0, 0, 0, 1] } ] }

/-- Clips for the C10 witness: the `"sitting"` asset carries no animation,
the other two carry `c10Clip`. -/
def c10Clips : String → List AnimationClip :=
  fun n => if n = "sitting" then [] else [c10Clip]

theorem jsEndsWith_iff {s suf : JSString} : jsEndsWith s suf = true ↔ suf <:+ s := by
  simp [jsEndsWith, List.isSuffixOf_iff_suffix]

theorem jsStartsWith_iff {s pre : JSString} : jsStartsWith s pre = true ↔ pre <+: s := by
  simp [jsStartsWith, List.isPrefixOf_iff_prefix]

/-- A suffix of a drop is a suffix of the whole list. -/
theorem jsEndsWith_of_drop {s suf : JSString} {n : Nat}
    (h : jsEndsWith (s.drop n) suf = true) : jsEndsWith s suf = true := by
  rw [jsEndsWith_iff] at h ⊢
  exact h.trans (List.drop_suffix n s)

/-- Stripping the namespace cannot create a suffix the name did not already
have. -/
theorem jsEndsWith_of_stripMixamoNs {s suf : JSString}
    (h : jsEndsWith (stripMixamoNs s) suf = true) : jsEndsWith s suf = true := by
  unfold stripMixamoNs at h
  by_cases hp : jsStartsWith s mixamoNs = true
  · rw [if_pos hp] at h
    exact jsEndsWith_of_drop h
  · rwa [if_neg hp] at h

/-- A nonempty suffix of `p ++ r` whose head does not occur in `p` is a
suffix of `r`. -/
theorem suffix_append_of_head_notMem {c : Char} {q p r : JSString}
    (h : (c :: q) <:+ p ++ r) (hc : c ∉ p) : (c :: q) <:+ r := by
  induction p with
  | nil => simpa using h
  | cons a p ih =>
    rw [List.cons_append, List.suffix_cons_iff] at h
    rcases h with h | h
    · injection h with h1 _
      rw [h1] at hc
      exact absurd (List.mem_cons_self a p) hc
    · exact ih h (fun hm => hc (List.mem_cons_of_mem a hm))

/-- Stripping the namespace preserves a suffix that starts with `'.'`
(the namespace contains no dot, so the suffix cannot straddle it). -/
theorem jsEndsWith_stripMixamoNs_of_dot {s q : JSString}
    (hq : jsEndsWith s ('.' :: q) = true) :
    jsEndsWith (stripMixamoNs s) ('.' :: q) = true := by
  unfold stripMixamoNs
  by_cases hp : jsStartsWith s mixamoNs = true
  · rw [if_pos hp]
    rw [jsStartsWith_iff] at hp
    obtain ⟨t, ht⟩ := hp
    rw [jsEndsWith_iff] at hq ⊢
    subst ht
    rw [List.drop_left]
    exact suffix_append_of_head_notMem hq (by decide)
  · rwa [if_neg hp]

/-- Two suffixes of the same list are comparable. -/
theorem suffix_comparable {s q1 q2 : JSString}
    (h1 : jsEndsWith s q1 = true) (h2 : jsEndsWith s q2 = true) :
    q1 <:+ q2 ∨ q2 <:+ q1 := by
  rw [jsEndsWith_iff] at h1 h2
  rw [← List.reverse_prefix] at h1 h2 ⊢
  rw [← List.reverse_prefix]
  exact List.prefix_or_prefix_of_prefix h1 h2

/-- A name ending in `.position` does not end in `.quaternion`. -/
theorem not_quaternion_of_position {s : JSString}
    (h : jsEndsWith s ".position".data = true) :
    jsEndsWith s ".quaternion".data = false := by
  by_contra hq
  simp only [Bool.not_eq_false] at hq
  rcases suffix_comparable h hq with hc | hc
  · exact absurd hc (by decide)
  · exact absurd hc (by decide)

/-- A name ending in `.scale` does not end in `.quaternion`. -/
theorem not_quaternion_of_scale {s : JSString}
    (h : jsEndsWith s ".scale".data = true) :
    jsEndsWith s ".quaternion".data = false := by
  by_contra hq
  simp only [Bool.not_eq_false] at hq
  rcases suffix_comparable h hq with hc | hc
  · exact absurd hc (by decide)
  · exact absurd hc (by decide)

/-- A name ending in `.quaternion` ends in neither `.position` nor
`.scale`. -/
theorem not_dropped_of_quaternion {s : JSString}
    (h : jsEndsWith s ".quaternion".data = true) :
    (jsEndsWith s ".position".data || jsEndsWith s ".scale".data) = false := by
  cases hp : jsEndsWith s ".position".data with
  | true => exact absurd (not_quaternion_of_position hp) (by simp [h])
  | false =>
    cases hs : jsEndsWith s ".scale".data with
    | true => exact absurd (not_quaternion_of_scale hs) (by simp [h])
    | false => rfl

/-- Every output track of the retargeting loop comes from a retained source
track, rebuilt with the namespace-stripped name and the same class, times,
and values. -/
theorem mem_retargetTracks {t : KeyframeTrack} {ts : List KeyframeTrack}
    (h : t ∈ retargetTracks ts) :
    ∃ s ∈ ts, (jsEndsWith s.name ".position".data || jsEndsWith s.name ".scale".data) = false ∧
      t = { name := stripMixamoNs s.name, kind := s.kind, times := s.times, values := s.values } := by
  induction ts with
  | nil => simp [retargetTracks] at h
  | cons track rest ih =>
    rw [retargetTracks] at h
    by_cases hd : (jsEndsWith track.name ".position".data || jsEndsWith track.name ".scale".data) = true
    · rw [if_pos hd] at h
      obtain ⟨s, hs, hrest⟩ := ih h
      exact ⟨s, List.mem_cons_of_mem track hs, hrest⟩
    · rw [if_neg hd] at h
      rcases List.mem_cons.mp h with h | h
      · exact ⟨track, List.mem_cons_self track rest,
          by simp only [Bool.not_eq_true] at hd; exact ⟨hd, h⟩⟩
      · obtain ⟨s, hs, hrest⟩ := ih h
        exact ⟨s, List.mem_cons_of_mem track hs, hrest⟩

/-- C2: for every source clip, the output of `retargetAnimation` contains
zero tracks whose property is `position` and zero tracks whose property is
`scale` (a track's property being the `.`-suffix of its name), for any mix of
track properties in the input. -/
theorem retarget_drops_position_and_scale (clip : AnimationClip) :
    (retargetAnimation clip).tracks.countP (fun t => jsEndsWith t.name ".position".data) = 0 ∧
    (retargetAnimation clip).tracks.countP (fun t => jsEndsWith t.name ".scale".data) = 0 := by
  constructor <;>
  · rw [List.countP_eq_zero]
    intro t ht hp
    obtain ⟨s, _, hdrop, heq⟩ := mem_retargetTracks ht
    have hname : t.name = stripMixamoNs s.name := by rw [heq]
    rw [hname] at hp
    have := jsEndsWith_of_stripMixamoNs hp
    simp [this] at hdrop

/-- The name sequence produced by the retargeting loop, on a track list whose
names all carry one of the three data-model properties: the rotation tracks'
names, namespace-stripped, in order. -/
theorem retargetTracks_map_name (ts : List KeyframeTrack)
    (h : ∀ t ∈ ts, jsEndsWith t.name ".position".data = true ∨
      jsEndsWith t.name ".scale".data = true ∨ jsEndsWith t.name ".quaternion".data = true) :
    (retargetTracks ts).map KeyframeTrack.name =
      (ts.filter (fun t => jsEndsWith t.name ".quaternion".data)).map
        (fun t => stripMixamoNs t.name) := by
  induction ts with
  | nil => rfl
  | cons t rest ih =>
    have ht := h t (List.mem_cons_self t rest)
    have hrest := fun s hs => h s (List.mem_cons_of_mem t hs)
    rw [retargetTracks, List.filter_cons]
    rcases ht with hp | hs | hq
    · rw [if_pos (by simp [hp]), if_neg (by simp [not_quaternion_of_position hp])]
      exact ih hrest
    · rw [if_pos (by simp [hs]), if_neg (by simp [not_quaternion_of_scale hs])]
      exact ih hrest
    · rw [if_neg (by simp [not_dropped_of_quaternion hq]), if_pos (by simp [hq])]
      simpa using ih hrest

/-- C3: for every source clip whose track names carry one of the three
properties of the data model (`position`, `scale`, or the rotation property
`quaternion`), the sequence of output track names equals the sequence of the
source's rotation-track names with the source namespace stripped when present
at the start (unchanged otherwise), in the source's relative order, and every
output name still carries the rotation property suffix. -/
theorem retarget_rotation_names_in_order (clip : AnimationClip)
    (h : ∀ t ∈ clip.tracks, jsEndsWith t.name ".position".data = true ∨
      jsEndsWith t.name ".scale".data = true ∨ jsEndsWith t.name ".quaternion".data = true) :
    (retargetAnimation clip).tracks.map KeyframeTrack.name =
      (clip.tracks.filter (fun t => jsEndsWith t.name ".quaternion".data)).map
        (fun t => stripMixamoNs t.name) ∧
    ∀ t ∈ (retargetAnimation clip).tracks, jsEndsWith t.name ".quaternion".data = true := by
  constructor
  · exact retargetTracks_map_name clip.tracks h
  · intro t ht
    obtain ⟨s, hsmem, hdrop, heq⟩ := mem_retargetTracks ht
    rcases h s hsmem with hp | hsc | hq
    · simp [hp] at hdrop
    · simp [hsc] at hdrop
    · have hdot : (".quaternion".data : JSString) = '.' :: "quaternion".data := by decide
      have : jsEndsWith (stripMixamoNs s.name) ".quaternion".data = true := by
        rw [hdot] at hq ⊢
        exact jsEndsWith_stripMixamoNs_of_dot hq
      rw [heq]
      exact this

/-- Witness for C3 at a concrete clip mixing all three track properties. -/
theorem retarget_rotation_names_in_order_witness :
    (∀ t ∈ c3Clip.tracks, jsEndsWith t.name ".position".data = true ∨
      jsEndsWith t.name ".scale".data = true ∨ jsEndsWith t.name ".quaternion".data = true) ∧
    ((retargetAnimation c3Clip).tracks.map KeyframeTrack.name =
      (c3Clip.tracks.filter (fun t => jsEndsWith t.name ".quaternion".data)).map
        (fun t => stripMixamoNs t.name) ∧
    ∀ t ∈ (retargetAnimation c3Clip).tracks, jsEndsWith t.name ".quaternion".data = true) :=
  ⟨by decide, retarget_rotation_names_in_order c3Clip (by decide)⟩

/-- C4: for every source clip, `retargetAnimation` returns a new clip with
the same name and duration, and every retained output track keeps its source
track's concrete class and exactly its time and value sequences, its name
being the namespace-stripped source name. -/
theorem retarget_preserves_name_duration_and_data (clip : AnimationClip) :
    (retargetAnimation clip).name = clip.name ∧
    (retargetAnimation clip).duration = clip.duration ∧
    ∀ t ∈ (retargetAnimation clip).tracks, ∃ s ∈ clip.tracks,
      t.kind = s.kind ∧ t.times = s.times ∧ t.values = s.values ∧
      t.name = stripMixamoNs s.name := by
  refine ⟨rfl, rfl, ?_⟩
  intro t ht
  obtain ⟨s, hsmem, _, heq⟩ := mem_retargetTracks ht
  exact ⟨s, hsmem, by rw [heq], by rw [heq], by rw [heq], by rw [heq]⟩

/-- On a clip none of whose track names start with the namespace, the
retargeting loop reduces to filtering out the position and scale tracks. -/
theorem retargetTracks_of_no_ns {ts : List KeyframeTrack}
    (h : ∀ t ∈ ts, jsStartsWith t.name mixamoNs = false) :
    retargetTracks ts =
      ts.filter (fun t =>
        !(jsEndsWith t.name ".position".data || jsEndsWith t.name ".scale".data)) := by
  induction ts with
  | nil => rfl
  | cons t rest ih =>
    have ht := h t (List.mem_cons_self t rest)
    have hrest := fun s hs => h s (List.mem_cons_of_mem t hs)
    have hname : stripMixamoNs t.name = t.name := by
      unfold stripMixamoNs
      rw [if_neg (by simp [ht])]
    rw [retargetTracks, List.filter_cons]
    by_cases hd : (jsEndsWith t.name ".position".data || jsEndsWith t.name ".scale".data) = true
    · rw [if_pos hd, if_neg (by simp [hd]), ih hrest]
    · rw [if_neg hd, if_pos (by simp [Bool.not_eq_true] at hd; simp [hd]), ih hrest, hname]

/-- C5: on a clip none of whose track names begin with the source-namespace
prefix (e.g. a clip already retargeted once), retargeting twice yields the
same tracks — identical names, classes, times, values — as retargeting
once. -/
theorem retarget_idempotent_on_stripped_clip (clip : AnimationClip)
    (h : ∀ t ∈ clip.tracks, jsStartsWith t.name mixamoNs = false) :
    (retargetAnimation (retargetAnimation clip)).tracks = (retargetAnimation clip).tracks := by
  show retargetTracks (retargetTracks clip.tracks) = retargetTracks clip.tracks
  rw [retargetTracks_of_no_ns h]
  rw [retargetTracks_of_no_ns
    (fun t ht => h t (List.mem_of_mem_filter ht))]
  simp [List.filter_filter]

/-- Witness for C5 at a concrete prefix-free clip. -/
theorem retarget_idempotent_on_stripped_clip_witness :
    (∀ t ∈ c5Clip.tracks, jsStartsWith t.name mixamoNs = false) ∧
    (retargetAnimation (retargetAnimation c5Clip)).tracks = (retargetAnimation c5Clip).tracks :=
  ⟨by decide, retarget_idempotent_on_stripped_clip c5Clip (by decide)⟩

/-- C1 counterexample: with the mixer built, `"walking"` registered, active
and playing, calling `playAnimation "sitting"` — a name absent from the
registry — is not a no-op: the previously active `"walking"` action does not
remain playing, its flag is cleared. -/
theorem switchTo_unregistered_not_noop :
    c1State.mixerBuilt = true ∧
    c1State.actions "sitting" = none ∧
    c1State.current = some "walking" ∧
    (c1State.actions "walking").map AnimAction.playing = some true ∧
    ((playAnimation "sitting" c1State).actions "walking").map AnimAction.playing = some false := by
  decide

/-- C1 as amended: calling `playAnimation` with a name absent from the
registry is a no-op when the mixer has not been constructed, and also when no
action is active; but when the mixer exists and an action is active, that
action is stopped (its playing flag is cleared) while everything else — the
current-action pointer, the loading state, the load count, and every other
registry entry — is unaffected, and no action is started. -/
theorem switchTo_unregistered_effect (st : ViewerState) (name : String)
    (h : st.actions name = none) :
    (st.mixerBuilt = false → playAnimation name st = st) ∧
    (st.mixerBuilt = true → st.current = none → playAnimation name st = st) ∧
    (st.mixerBuilt = true → ∀ c, st.current = some c →
      (playAnimation name st).mixerBuilt = true ∧
      (playAnimation name st).current = some c ∧
      (playAnimation name st).isLoading = st.isLoading ∧
      (playAnimation name st).loadedAnimations = st.loadedAnimations ∧
      (∀ m, m ≠ c → (playAnimation name st).actions m = st.actions m) ∧
      (playAnimation name st).actions c =
        (st.actions c).map (fun (a : AnimAction) => { a with playing := false })) := by
  refine ⟨?_, ?_, ?_⟩
  · intro hm
    simp [playAnimation, hm]
  · intro hm hc
    simp [playAnimation, hm, hc, h]
  · intro hm c hc
    have hres : playAnimation name st =
        { st with actions := fun n =>
            if n = c then (st.actions c).map (fun (a : AnimAction) => { a with playing := false })
            else st.actions n } := by
      simp only [playAnimation, hm, hc]
      rw [if_neg (by simp)]
      by_cases hnc : name = c
      · rw [if_pos hnc]
        subst hnc
        rw [h]
        rfl
      · rw [if_neg hnc, h]
    rw [hres]
    refine ⟨hm, hc, rfl, rfl, ?_, ?_⟩
    · intro m hmc
      simp only [if_neg hmc]
    · simp

/-- Witness for the amended C1 at the concrete state of the counterexample. -/
theorem switchTo_unregistered_effect_witness :
    c1State.actions "sitting" = none ∧
    ((c1State.mixerBuilt = false → playAnimation "sitting" c1State = c1State) ∧
    (c1State.mixerBuilt = true → c1State.current = none → playAnimation "sitting" c1State = c1State) ∧
    (c1State.mixerBuilt = true → ∀ c, c1State.current = some c →
      (playAnimation "sitting" c1State).mixerBuilt = true ∧
      (playAnimation "sitting" c1State).current = some c ∧
      (playAnimation "sitting" c1State).isLoading = c1State.isLoading ∧
      (playAnimation "sitting" c1State).loadedAnimations = c1State.loadedAnimations ∧
      (∀ m, m ≠ c → (playAnimation "sitting" c1State).actions m = c1State.actions m) ∧
      (playAnimation "sitting" c1State).actions c =
        (c1State.actions c).map (fun (a : AnimAction) => { a with playing := false }))) :=
  ⟨rfl, switchTo_unregistered_effect c1State "sitting" rfl⟩

/-- C8 counterexample: in the reachable state `c8CexState` (walking and
sitting loaded, Sitting clicked mid-load, then the completing load plays
walking without stopping sitting), calling `playAnimation "standing_up"` —
a name present in the registry — returns with two distinct actions playing
(`"sitting"` and `"standing_up"`), so exactly one action being active when
the call returns is false. -/
theorem switchTo_two_actions_playing :
    c8CexState.mixerBuilt = true ∧
    (c8CexState.actions "standing_up").isSome = true ∧
    ((playAnimation "standing_up" c8CexState).actions "standing_up").map
      AnimAction.playing = some true ∧
    ((playAnimation "standing_up" c8CexState).actions "sitting").map
      AnimAction.playing = some true ∧
    ("sitting" : String) ≠ "standing_up" := by
  decide

/-- C8 as amended: for a name present in the registry (with the mixer built,
as it is whenever the registry is nonempty), `playAnimation` makes the target
current, resets it to frame zero unconditionally — also when the target is
the already-active action — and starts it playing; the previously current
action, if different, is stopped (its playing flag becomes false); every
other registry entry is untouched, so an action left playing without being
the tracked current one keeps playing, and exactly one action is playing
when the call returns only under the additional premise that at most the
tracked current action was playing before it. -/
theorem switchTo_registered_effect (st : ViewerState) (name : String) (a : AnimAction)
    (hm : st.mixerBuilt = true) (ha : st.actions name = some a) :
    (playAnimation name st).current = some name ∧
    (playAnimation name st).actions name =
      some { clip := a.clip, playing := true, time := 0 } ∧
    (∀ c b, st.current = some c → c ≠ name → st.actions c = some b →
      (playAnimation name st).actions c = some { b with playing := false }) ∧
    (∀ m, m ≠ name → st.current ≠ some m → (playAnimation name st).actions m = st.actions m) ∧
    (OnlyCurrentPlaying st →
      ∀ m b, m ≠ name → (playAnimation name st).actions m = some b → b.playing = false) := by
  cases hcur : st.current with
  | none =>
    refine ⟨?_, ?_, ?_, ?_, ?_⟩
    · simp [playAnimation, hm, hcur, ha]
    · simp [playAnimation, hm, hcur, ha]
    · intro c b hc
      simp at hc
    · intro m hmn _
      simp [playAnimation, hm, hcur, ha, hmn]
    · intro hinv m b hmn hb
      have heq : (playAnimation name st).actions m = st.actions m := by
        simp [playAnimation, hm, hcur, ha, hmn]
      rw [heq] at hb
      by_contra hbp
      have hcm := hinv m b hb (by simpa using hbp)
      rw [hcur] at hcm
      cases hcm
  | some cur =>
    by_cases hnc : name = cur
    · subst hnc
      refine ⟨?_, ?_, ?_, ?_, ?_⟩
      · simp [playAnimation, hm, hcur, ha]
      · simp [playAnimation, hm, hcur, ha]
      · intro c b hc hcn _
        injection hc with hc
        exact absurd hc.symm hcn
      · intro m hmn _
        simp [playAnimation, hm, hcur, ha, hmn]
      · intro hinv m b hmn hb
        have heq : (playAnimation name st).actions m = st.actions m := by
          simp [playAnimation, hm, hcur, ha, hmn]
        rw [heq] at hb
        by_contra hbp
        have hcm := hinv m b hb (by simpa using hbp)
        rw [hcur] at hcm
        injection hcm with hcm
        exact hmn hcm.symm
    · refine ⟨?_, ?_, ?_, ?_, ?_⟩
      · simp [playAnimation, hm, hcur, ha, hnc]
      · simp [playAnimation, hm, hcur, ha, hnc]
      · intro c b hc hcn hb
        injection hc with hc
        subst hc
        have heq : (playAnimation name st).actions cur =
            (st.actions cur).map (fun (x : AnimAction) => { x with playing := false }) := by
          simp [playAnimation, hm, hcur, ha, hnc, hcn]
        rw [heq, hb]
        rfl
      · intro m hmn hcm2
        have hmc : m ≠ cur := fun h => hcm2 (by rw [h])
        simp [playAnimation, hm, hcur, ha, hnc, hmn, hmc]
      · intro hinv m b hmn hb
        by_cases hmc : m = cur
        · subst hmc
          have heq : (playAnimation name st).actions m =
              (st.actions m).map (fun (x : AnimAction) => { x with playing := false }) := by
            simp [playAnimation, hm, hcur, ha, hnc, hmn]
          rw [heq] at hb
          rcases Option.map_eq_some'.mp hb with ⟨b0, _, hb0⟩
          rw [← hb0]
        · have heq : (playAnimation name st).actions m = st.actions m := by
            simp [playAnimation, hm, hcur, ha, hnc, hmn, hmc]
          rw [heq] at hb
          by_contra hbp
          have hcm := hinv m b hb (by simpa using hbp)
          rw [hcur] at hcm
          injection hcm with hcm
          exact hmc hcm.symm

/-- Witness for the amended C8: switching to the registered `"sitting"` while
`"walking"` plays. -/
theorem switchTo_registered_effect_witness :
    c8State.mixerBuilt = true ∧
    c8State.actions "sitting" = some c8SitAction ∧
    ((playAnimation "sitting" c8State).current = some "sitting" ∧
     (playAnimation "sitting" c8State).actions "sitting" =
       some { clip := c8SitAction.clip, playing := true, time := 0 } ∧
     (∀ c b, c8State.current = some c → c ≠ "sitting" → c8State.actions c = some b →
       (playAnimation "sitting" c8State).actions c = some { b with playing := false }) ∧
     (∀ m, m ≠ "sitting" → c8State.current ≠ some m →
       (playAnimation "sitting" c8State).actions m = c8State.actions m) ∧
     (OnlyCurrentPlaying c8State →
       ∀ m b, m ≠ "sitting" → (playAnimation "sitting" c8State).actions m = some b →
         b.playing = false)) :=
  ⟨rfl, by decide,
    switchTo_registered_effect c8State "sitting" c8SitAction rfl (by decide)⟩

theorem succNames_append (clips : String → List AnimationClip) (l : List String) (m : String) :
    succNames clips (l ++ [m]) =
      succNames clips l ++ (if (clips m).isEmpty then [] else [m]) := by
  unfold succNames
  rw [List.filter_append]
  by_cases h : (clips m).isEmpty
  · simp [h]
  · simp [h]

theorem succNames_sublist (clips : String → List AnimationClip) (l : List String) :
    List.Sublist (succNames clips l) l :=
  List.filter_sublist l

theorem exists_clip_of_mem_succNames {clips : String → List AnimationClip}
    {l : List String} {n : String} (h : n ∈ succNames clips l) :
    ∃ c cs, clips n = c :: cs := by
  unfold succNames at h
  have hp := List.of_mem_filter h
  cases hc : clips n with
  | nil =>
    rw [hc] at hp
    simp at hp
  | cons c cs => exact ⟨c, cs, rfl⟩

/-- A duplicate-free list of at least three names drawn from the three
expected ones contains all three. -/
theorem mem_of_nodup_subset_three {l : List String} (hn : l.Nodup)
    (hs : ∀ x ∈ l, x ∈ threeNames) (hl : 3 ≤ l.length) :
    ∀ x ∈ threeNames, x ∈ l := by
  have hsub : List.Subperm l threeNames := List.subperm_of_subset hn hs
  have hperm : l.Perm threeNames :=
    hsub.perm_of_length_le (by simpa [threeNames] using hl)
  intro x hx
  exact hperm.mem_iff.mpr hx

theorem succNames_nodup {clips : String → List AnimationClip} {l : List String}
    (hn : l.Nodup) : (succNames clips l).Nodup :=
  hn.sublist (succNames_sublist clips l)

theorem succNames_subset_three {clips : String → List AnimationClip} {l : List String}
    (hs : ∀ x ∈ l, x ∈ threeNames) : ∀ x ∈ succNames clips l, x ∈ threeNames :=
  fun x hx => hs x ((succNames_sublist clips l).subset hx)

theorem succNames_length_le {clips : String → List AnimationClip} {l : List String}
    (hn : l.Nodup) (hs : ∀ x ∈ l, x ∈ threeNames) :
    (succNames clips l).length ≤ 3 := by
  have hsub : List.Subperm (succNames clips l) threeNames :=
    List.subperm_of_subset (succNames_nodup hn) (succNames_subset_three hs)
  simpa [threeNames] using hsub.length_le

/-- Step equation for a load completion carrying a clip when the count stays
below the total: register the action, bump the counter. -/
theorem onAnimationLoaded_cons_notReady (m : String) (c : AnimationClip)
    (cs : List AnimationClip) (st : ViewerState)
    (h : ¬(st.loadedAnimations + 1 = totalAnimations)) :
    onAnimationLoaded m (c :: cs) st =
      { st with
        actions := fun n =>
          if n = m then some (clipAction (retargetAnimation c)) else st.actions n,
        loadedAnimations := st.loadedAnimations + 1 } := by
  unfold onAnimationLoaded
  simp only [List.head?_cons]
  rw [if_neg h]

/-- Step equation for the load completion that brings the count to the
total, when the `"walking"` entry (after this registration) is `w`: register,
bump, mark `"walking"` current and playing, clear the loading flag. -/
theorem onAnimationLoaded_cons_ready (m : String) (c : AnimationClip)
    (cs : List AnimationClip) (st : ViewerState) (w : AnimAction)
    (h : st.loadedAnimations + 1 = totalAnimations)
    (hw : (if ("walking" : String) = m then some (clipAction (retargetAnimation c))
        else st.actions "walking") = some w) :
    onAnimationLoaded m (c :: cs) st =
      { st with
        actions := fun n =>
          if n = "walking" then some { w with playing := true }
          else if n = m then some (clipAction (retargetAnimation c)) else st.actions n,
        current := some "walking",
        loadedAnimations := st.loadedAnimations + 1,
        isLoading := false } := by
  unfold onAnimationLoaded
  simp only [List.head?_cons]
  rw [if_pos h, hw]

/-- Invariant of any run of load completions reachable in the component
(duplicate-free names drawn from the three expected ones): the mixer stays
built, the load counter equals the number of successful registrations, the
loading flag is set exactly while that count is below three, the current
action is the default `"walking"` exactly once the count reaches three, and
every registry entry is as described by `regEntry`. -/
theorem runLoads_spec (clips : String → List AnimationClip) (order : List String) :
    order.Nodup → (∀ n ∈ order, n ∈ threeNames) →
    (runLoads clips order initState).mixerBuilt = true ∧
    (runLoads clips order initState).loadedAnimations = (succNames clips order).length ∧
    (runLoads clips order initState).isLoading = decide ((succNames clips order).length < 3) ∧
    (runLoads clips order initState).current =
      (if (succNames clips order).length = 3 then some "walking" else none) ∧
    ∀ n, (runLoads clips order initState).actions n =
      regEntry clips (succNames clips order) n := by
  induction order using List.reverseRecOn with
  | nil =>
    intro _ _
    refine ⟨rfl, rfl, rfl, rfl, fun n => ?_⟩
    simp [runLoads, initState, regEntry, succNames]
  | append_singleton l m ih =>
    intro h1 h2
    have h1l : l.Nodup := ((List.nodup_append).mp h1).1
    have hdisj : l.Disjoint [m] := ((List.nodup_append).mp h1).2.2
    have hml : m ∉ l := fun hm => hdisj hm (List.mem_singleton.mpr rfl)
    have h2l : ∀ n ∈ l, n ∈ threeNames := fun n hn => h2 n (List.mem_append_left _ hn)
    obtain ⟨ihMix, ihLoad, ihIsL, ihCur, ihAct⟩ := ih h1l h2l
    have hrun : runLoads clips (l ++ [m]) initState =
        onAnimationLoaded m (clips m) (runLoads clips l initState) := by
      simp [runLoads, List.foldl_append]
    by_cases he : (clips m).isEmpty
    · -- the asset for m carries no clip: the completion is a no-op
      have hnil : clips m = [] := List.isEmpty_iff.mp he
      have hsucc : succNames clips (l ++ [m]) = succNames clips l := by
        rw [succNames_append, if_pos he, List.append_nil]
      have hstep : onAnimationLoaded m (clips m) (runLoads clips l initState) =
          runLoads clips l initState := by
        rw [hnil]
        rfl
      rw [hrun, hstep, hsucc]
      exact ⟨ihMix, ihLoad, ihIsL, ihCur, ihAct⟩
    · -- the load registers an action for m
      obtain ⟨c, cs, hcm⟩ : ∃ c cs, clips m = c :: cs := by
        cases hc : clips m with
        | nil => rw [hc] at he; simp at he
        | cons c cs => exact ⟨c, cs, rfl⟩
      set st := runLoads clips l initState with hst
      set k := (succNames clips l).length with hk
      have hsucc : succNames clips (l ++ [m]) = succNames clips l ++ [m] := by
        rw [succNames_append, if_neg he]
      have hmsucc : m ∉ succNames clips l :=
        fun hm => hml ((succNames_sublist clips l).subset hm)
      have hlen' : (succNames clips (l ++ [m])).length = k + 1 := by
        rw [hsucc]
        simp
      have hle : (succNames clips (l ++ [m])).length ≤ 3 := succNames_length_le h1 h2
      rw [hlen'] at hle
      have hmem' : m ∈ succNames clips (l ++ [m]) := by
        rw [hsucc]
        exact List.mem_append_right _ (List.mem_singleton.mpr rfl)
      by_cases hk3 : k + 1 = 3
      · -- this is the completing third load: the ready transition fires
        have hkne : ¬(k = 3) := by omega
        have hall : ∀ x ∈ threeNames, x ∈ succNames clips (l ++ [m]) := by
          refine mem_of_nodup_subset_three (succNames_nodup h1) (succNames_subset_three h2) ?_
          rw [hlen']
          omega
        have hwalk : "walking" ∈ succNames clips (l ++ [m]) :=
          hall "walking" (by simp [threeNames])
        have hcount : st.loadedAnimations + 1 = totalAnimations := by
          rw [ihLoad, totalAnimations]
          exact hk3
        by_cases hwm : ("walking" : String) = m
        · -- walking is the very name that just arrived
          subst hwm
          have hres : onAnimationLoaded "walking" (clips "walking") st =
              { st with
                actions := fun n =>
                  if n = "walking" then
                    some { clipAction (retargetAnimation c) with playing := true }
                  else if n = "walking" then
                    some (clipAction (retargetAnimation c))
                  else st.actions n,
                current := some "walking",
                loadedAnimations := st.loadedAnimations + 1,
                isLoading := false } := by
            rw [hcm]
            exact onAnimationLoaded_cons_ready "walking" c cs st _ hcount (if_pos rfl)
          rw [hrun, hres]
          refine ⟨ihMix, ?_, ?_, ?_, ?_⟩
          · rw [hlen', ihLoad]
          · rw [hlen']
            show false = decide (k + 1 < 3)
            rw [hk3]
            rfl
          · rw [hlen', if_pos hk3]
          · intro n
            show (if n = "walking" then
                some { clipAction (retargetAnimation c) with playing := true }
              else if n = "walking" then
                some (clipAction (retargetAnimation c))
              else st.actions n) =
              regEntry clips (succNames clips (l ++ ["walking"])) n
            rw [regEntry, hlen']
            by_cases hn : n = "walking"
            · subst hn
              rw [if_pos rfl, if_pos hwalk, hcm]
              simp [clipAction, hk3]
            · rw [if_neg hn, if_neg hn, ihAct n, regEntry]
              have hmem : (n ∈ succNames clips (l ++ ["walking"])) ↔
                  (n ∈ succNames clips l) := by
                rw [hsucc]
                simp [hn]
              by_cases hns : n ∈ succNames clips l
              · rw [if_pos hns, if_pos (hmem.mpr hns)]
                have hb : decide (k = 3 ∧ n = "walking") =
                    decide (k + 1 = 3 ∧ n = "walking") := by
                  rw [decide_eq_decide]
                  constructor
                  · rintro ⟨ha, -⟩
                    exact absurd ha hkne
                  · rintro ⟨-, hb⟩
                    exact absurd hb hn
                rw [hb]
              · rw [if_neg hns, if_neg (fun hx => hns (hmem.mp hx))]
        · -- walking was already registered before this call
          have hwl : "walking" ∈ succNames clips l := by
            have hw2 := hwalk
            rw [hsucc] at hw2
            rcases List.mem_append.mp hw2 with h | h
            · exact h
            · exact absurd (List.mem_singleton.mp h) hwm
          obtain ⟨cw, cws, hcw⟩ := exists_clip_of_mem_succNames hwl
          have hwentry : st.actions "walking" =
              some { clip := retargetAnimation cw, playing := false, time := 0 } := by
            rw [ihAct "walking", regEntry, if_pos hwl, hcw]
            simp [hkne]
          have hres : onAnimationLoaded m (clips m) st =
              { st with
                actions := fun n =>
                  if n = "walking" then
                    some { clip := retargetAnimation cw, playing := true, time := 0 }
                  else if n = m then some (clipAction (retargetAnimation c)) else st.actions n,
                current := some "walking",
                loadedAnimations := st.loadedAnimations + 1,
                isLoading := false } := by
            rw [hcm]
            exact onAnimationLoaded_cons_ready m c cs st _ hcount
              (by rw [if_neg hwm]; exact hwentry)
          rw [hrun, hres]
          refine ⟨ihMix, ?_, ?_, ?_, ?_⟩
          · rw [hlen', ihLoad]
          · rw [hlen']
            show false = decide (k + 1 < 3)
            rw [hk3]
            rfl
          · rw [hlen', if_pos hk3]
          · intro n
            show (if n = "walking" then
                some { clip := retargetAnimation cw, playing := true, time := 0 }
              else if n = m then some (clipAction (retargetAnimation c)) else st.actions n) =
              regEntry clips (succNames clips (l ++ [m])) n
            rw [regEntry, hlen']
            by_cases hn : n = "walking"
            · subst hn
              rw [if_pos rfl, if_pos hwalk, hcw]
              simp [hk3]
            · rw [if_neg hn]
              by_cases hnm : n = m
              · subst hnm
                rw [if_pos rfl, if_pos hmem', hcm]
                simp [clipAction, hn]
              · rw [if_neg hnm, ihAct n, regEntry]
                have hmem : (n ∈ succNames clips (l ++ [m])) ↔ (n ∈ succNames clips l) := by
                  rw [hsucc]
                  simp [hnm]
                by_cases hns : n ∈ succNames clips l
                · rw [if_pos hns, if_pos (hmem.mpr hns)]
                  have hb : decide (k = 3 ∧ n = "walking") =
                      decide (k + 1 = 3 ∧ n = "walking") := by
                    rw [decide_eq_decide]
                    constructor
                    · rintro ⟨ha, -⟩
                      exact absurd ha hkne
                    · rintro ⟨-, hb⟩
                      exact absurd hb hn
                  rw [hb]
                · rw [if_neg hns, if_neg (fun hx => hns (hmem.mp hx))]
      · -- fewer than three loads so far: still loading
        have hklt : k + 1 < 3 := by omega
        have hkne : ¬(k = 3) := by omega
        have hcount : ¬(st.loadedAnimations + 1 = totalAnimations) := by
          rw [ihLoad, totalAnimations]
          exact hk3
        have hres : onAnimationLoaded m (clips m) st =
            { st with
              actions := fun n =>
                if n = m then some (clipAction (retargetAnimation c)) else st.actions n,
              loadedAnimations := st.loadedAnimations + 1 } := by
          rw [hcm]
          exact onAnimationLoaded_cons_notReady m c cs st hcount
        rw [hrun, hres]
        refine ⟨ihMix, ?_, ?_, ?_, ?_⟩
        · rw [hlen', ihLoad]
        · rw [hlen']
          show st.isLoading = decide (k + 1 < 3)
          rw [ihIsL, decide_eq_decide]
          omega
        · rw [hlen']
          show st.current = (if k + 1 = 3 then some "walking" else none)
          rw [ihCur, if_neg hkne, if_neg hk3]
        · intro n
          show (if n = m then some (clipAction (retargetAnimation c)) else st.actions n) =
            regEntry clips (succNames clips (l ++ [m])) n
          rw [regEntry, hlen']
          by_cases hnm : n = m
          · subst hnm
            rw [if_pos rfl, if_pos hmem', hcm]
            simp [clipAction, hk3]
          · rw [if_neg hnm, ihAct n, regEntry]
            have hmem : (n ∈ succNames clips (l ++ [m])) ↔ (n ∈ succNames clips l) := by
              rw [hsucc]
              simp [hnm]
            by_cases hns : n ∈ succNames clips l
            · rw [if_pos hns, if_pos (hmem.mpr hns)]
              have hb : decide (k = 3 ∧ n = "walking") =
                  decide (k + 1 = 3 ∧ n = "walking") := by
                rw [decide_eq_decide]
                constructor
                · rintro ⟨ha, -⟩
                  omega
                · rintro ⟨ha, -⟩
                  omega
              rw [hb]
            · rw [if_neg hns, if_neg (fun hx => hns (hmem.mp hx))]

/-- C6: registering the three expected names, with fixed raw clips, in any of
the 3! arrival orders produces the same final Ready state — literally the
same controller state, hence the same registry contents — with the default
`"walking"` action current, playing, at frame zero, and the loading indicator
cleared. -/
theorem registration_order_irrelevant (clips : String → List AnimationClip)
    (hc : ∀ n ∈ threeNames, clips n ≠ []) (order : List String)
    (hp : order.Perm threeNames) :
    runLoads clips order initState = runLoads clips threeNames initState ∧
    (runLoads clips order initState).isLoading = false ∧
    (runLoads clips order initState).current = some "walking" ∧
    ∃ a, (runLoads clips order initState).actions "walking" = some a ∧
      a.playing = true ∧ a.time = 0 := by
  have htn : threeNames.Nodup := by decide
  have hn : order.Nodup := (hp.nodup_iff).mpr htn
  have hsub : ∀ n ∈ order, n ∈ threeNames := fun n h => hp.mem_iff.mp h
  have hsucc1 : succNames clips order = order := by
    unfold succNames
    refine List.filter_eq_self.mpr (fun n hn2 => ?_)
    have := hc n (hp.mem_iff.mp hn2)
    simp [this]
  have hsucc2 : succNames clips threeNames = threeNames := by
    unfold succNames
    refine List.filter_eq_self.mpr (fun n hn2 => ?_)
    have := hc n hn2
    simp [this]
  have hlen1 : (succNames clips order).length = 3 := by
    rw [hsucc1, hp.length_eq]
    rfl
  have hlen2 : (succNames clips threeNames).length = 3 := by
    rw [hsucc2]
    rfl
  obtain ⟨m1, l1, i1, c1, a1⟩ := runLoads_spec clips order hn hsub
  obtain ⟨m2, l2, i2, c2, a2⟩ := runLoads_spec clips threeNames htn (fun n h => h)
  have hreg : ∀ n, regEntry clips (succNames clips order) n =
      regEntry clips (succNames clips threeNames) n := by
    intro n
    rw [hsucc1, hsucc2]
    unfold regEntry
    by_cases hmem : n ∈ threeNames
    · rw [if_pos (hp.mem_iff.mpr hmem), if_pos hmem, hp.length_eq]
    · rw [if_neg (fun hx => hmem (hp.mem_iff.mp hx)), if_neg hmem]
  refine ⟨?_, ?_, ?_, ?_⟩
  · exact ViewerState.ext (by rw [m1, m2])
      (funext fun n => by rw [a1 n, a2 n, hreg n])
      (by rw [c1, c2, hlen1, hlen2])
      (by rw [l1, l2, hlen1, hlen2])
      (by rw [i1, i2, hlen1, hlen2])
  · rw [i1, hlen1]
    rfl
  · rw [c1, hlen1, if_pos rfl]
  · have hw3 : ("walking" : String) ∈ threeNames := by decide
    have hwo : ("walking" : String) ∈ order := hp.mem_iff.mpr hw3
    cases hcw : clips "walking" with
    | nil => exact absurd hcw (hc "walking" hw3)
    | cons cw cws =>
      refine ⟨{ clip := retargetAnimation cw, playing := true, time := 0 }, ?_, rfl, rfl⟩
      rw [a1 "walking"]
      unfold regEntry
      rw [hsucc1, if_pos hwo, hcw, hp.length_eq]
      simp [threeNames]

/-- Witness for C6 at a concrete permutation of the three names. -/
theorem registration_order_irrelevant_witness :
    (∀ n ∈ threeNames, c6Clips n ≠ []) ∧
    (["sitting", "standing_up", "walking"] : List String).Perm threeNames ∧
    (runLoads c6Clips ["sitting", "standing_up", "walking"] initState =
      runLoads c6Clips threeNames initState ∧
    (runLoads c6Clips ["sitting", "standing_up", "walking"] initState).isLoading = false ∧
    (runLoads c6Clips ["sitting", "standing_up", "walking"] initState).current =
      some "walking" ∧
    ∃ a, (runLoads c6Clips ["sitting", "standing_up", "walking"] initState).actions
        "walking" = some a ∧ a.playing = true ∧ a.time = 0) :=
  ⟨by decide, by decide,
    registration_order_irrelevant c6Clips (by decide)
      ["sitting", "standing_up", "walking"] (by decide)⟩

/-- C7: after any reachable sequence of load completions that registers fewer
than three of the expected names, the controller is still loading — the
indicator remains set, no action has been selected as current, and no action
is playing. -/
theorem fewer_than_three_still_loading (clips : String → List AnimationClip)
    (order : List String) (h1 : order.Nodup) (h2 : ∀ n ∈ order, n ∈ threeNames)
    (hk : (succNames clips order).length < 3) :
    (runLoads clips order initState).isLoading = true ∧
    (runLoads clips order initState).current = none ∧
    ∀ n a, (runLoads clips order initState).actions n = some a → a.playing = false := by
  obtain ⟨-, -, i1, c1, a1⟩ := runLoads_spec clips order h1 h2
  refine ⟨?_, ?_, ?_⟩
  · rw [i1]
    exact decide_eq_true hk
  · rw [c1, if_neg (by omega)]
  · intro n a ha
    rw [a1 n] at ha
    unfold regEntry at ha
    by_cases hns : n ∈ succNames clips order
    · rw [if_pos hns] at ha
      rcases Option.map_eq_some'.mp ha with ⟨c0, -, hc0⟩
      rw [← hc0]
      simp only [decide_eq_false_iff_not]
      rintro ⟨h3, -⟩
      omega
    · rw [if_neg hns] at ha
      cases ha

/-- Witness for C7: only two of the three names have arrived. -/
theorem fewer_than_three_still_loading_witness :
    (["walking", "sitting"] : List String).Nodup ∧
    (∀ n ∈ (["walking", "sitting"] : List String), n ∈ threeNames) ∧
    (succNames c7Clips ["walking", "sitting"]).length < 3 ∧
    ((runLoads c7Clips ["walking", "sitting"] initState).isLoading = true ∧
    (runLoads c7Clips ["walking", "sitting"] initState).current = none ∧
    ∀ n a, (runLoads c7Clips ["walking", "sitting"] initState).actions n = some a →
      a.playing = false) :=
  ⟨by decide, by decide, by decide,
    fewer_than_three_still_loading c7Clips ["walking", "sitting"]
      (by decide) (by decide) (by decide)⟩

/-- C9: along any reachable sequence of load completions, the loading
indicator is cleared exactly on those prefixes after which the registry holds
all three expected names — so the Loading-to-Ready transition and its
default-selection side effect happen exactly once, on exactly the completing
call — and whenever it has been cleared the `"walking"` action (necessarily
present among the three expected names) is current, playing, and at frame
zero, while before the transition no action is current. -/
theorem ready_transition_exactly_once (clips : String → List AnimationClip)
    (order : List String) (h1 : order.Nodup) (h2 : ∀ n ∈ order, n ∈ threeNames) :
    ∀ pre, pre <+: order →
      (((runLoads clips pre initState).isLoading = false) ↔
        (∀ n ∈ threeNames, (runLoads clips pre initState).actions n ≠ none)) ∧
      ((runLoads clips pre initState).isLoading = false →
        (runLoads clips pre initState).current = some "walking" ∧
        ∃ a, (runLoads clips pre initState).actions "walking" = some a ∧
          a.playing = true ∧ a.time = 0) ∧
      ((runLoads clips pre initState).isLoading = true →
        (runLoads clips pre initState).current = none) := by
  intro pre hpre
  have h1p : pre.Nodup := h1.sublist hpre.sublist
  have h2p : ∀ n ∈ pre, n ∈ threeNames := fun n h => h2 n (hpre.sublist.subset h)
  obtain ⟨-, -, i1, c1, a1⟩ := runLoads_spec clips pre h1p h2p
  have hle : (succNames clips pre).length ≤ 3 := succNames_length_le h1p h2p
  refine ⟨?_, ?_, ?_⟩
  · constructor
    · intro hld n hn3
      rw [i1] at hld
      have h3 : ¬((succNames clips pre).length < 3) := of_decide_eq_false hld
      have hmem : n ∈ succNames clips pre :=
        mem_of_nodup_subset_three (succNames_nodup h1p) (succNames_subset_three h2p)
          (by omega) n hn3
      rw [a1 n]
      unfold regEntry
      rw [if_pos hmem]
      obtain ⟨c0, cs0, hc0⟩ := exists_clip_of_mem_succNames hmem
      rw [hc0]
      simp
    · intro hall
      rw [i1]
      have hsub3 : ∀ n ∈ threeNames, n ∈ succNames clips pre := by
        intro n hn3
        by_contra hns
        have hx := hall n hn3
        rw [a1 n] at hx
        unfold regEntry at hx
        rw [if_neg hns] at hx
        exact hx rfl
      have h3le : 3 ≤ (succNames clips pre).length := by
        have hsp : List.Subperm threeNames (succNames clips pre) :=
          List.subperm_of_subset (by decide) hsub3
        simpa [threeNames] using hsp.length_le
      have hlen : (succNames clips pre).length = 3 := by omega
      rw [hlen]
      rfl
  · intro hld
    rw [i1] at hld
    have h3 : ¬((succNames clips pre).length < 3) := of_decide_eq_false hld
    have hlen : (succNames clips pre).length = 3 := by omega
    constructor
    · rw [c1, if_pos hlen]
    · have hmem : "walking" ∈ succNames clips pre :=
        mem_of_nodup_subset_three (succNames_nodup h1p) (succNames_subset_three h2p)
          (by omega) "walking" (by decide)
      obtain ⟨c0, cs0, hc0⟩ := exists_clip_of_mem_succNames hmem
      refine ⟨{ clip := retargetAnimation c0, playing := true, time := 0 }, ?_, rfl, rfl⟩
      rw [a1 "walking"]
      unfold regEntry
      rw [if_pos hmem, hc0, hlen]
      simp
  · intro hld
    rw [i1] at hld
    have hlt : (succNames clips pre).length < 3 := of_decide_eq_true hld
    rw [c1, if_neg (by omega)]

/-- Witness for C9 at the canonical full order and a strict prefix of it. -/
theorem ready_transition_exactly_once_witness :
    threeNames.Nodup ∧ (∀ n ∈ threeNames, n ∈ threeNames) ∧
    (["walking", "sitting"] : List String) <+: threeNames ∧
    ((((runLoads c9Clips ["walking", "sitting"] initState).isLoading = false) ↔
      (∀ n ∈ threeNames,
        (runLoads c9Clips ["walking", "sitting"] initState).actions n ≠ none)) ∧
    ((runLoads c9Clips ["walking", "sitting"] initState).isLoading = false →
      (runLoads c9Clips ["walking", "sitting"] initState).current = some "walking" ∧
      ∃ a, (runLoads c9Clips ["walking", "sitting"] initState).actions "walking" = some a ∧
        a.playing = true ∧ a.time = 0) ∧
    ((runLoads c9Clips ["walking", "sitting"] initState).isLoading = true →
      (runLoads c9Clips ["walking", "sitting"] initState).current = none)) :=
  ⟨by decide, fun n h => h, by decide,
    ready_transition_exactly_once c9Clips threeNames (by decide) (fun n h => h)
      ["walking", "sitting"] (by decide)⟩

/-- C10: when the asset loaded for one of the three names contains no
animation clip, that completion registers nothing, does not count toward the
expected total, and raises no error (it leaves the state untouched); after
all three load callbacks have completed, the controller therefore never
reaches Ready — the loading indicator is still set and no action is
current. -/
theorem empty_asset_blocks_ready (clips : String → List AnimationClip)
    (order : List String) (hp : order.Perm threeNames) (m : String)
    (hm : m ∈ threeNames) (he : clips m = []) :
    (∀ s, onAnimationLoaded m (clips m) s = s) ∧
    (runLoads clips order initState).actions m = none ∧
    (runLoads clips order initState).loadedAnimations = (succNames clips order).length ∧
    (runLoads clips order initState).loadedAnimations < 3 ∧
    (runLoads clips order initState).isLoading = true ∧
    (runLoads clips order initState).current = none := by
  have htn : threeNames.Nodup := by decide
  have h1 : order.Nodup := hp.nodup_iff.mpr htn
  have h2 : ∀ n ∈ order, n ∈ threeNames := fun n h => hp.mem_iff.mp h
  obtain ⟨-, l1, i1, c1, a1⟩ := runLoads_spec clips order h1 h2
  have hms : m ∉ succNames clips order := by
    intro hx
    obtain ⟨c0, cs0, hc0⟩ := exists_clip_of_mem_succNames hx
    rw [he] at hc0
    cases hc0
  have hle : (succNames clips order).length ≤ 3 := succNames_length_le h1 h2
  have hlt : (succNames clips order).length < 3 := by
    rcases Nat.lt_or_ge (succNames clips order).length 3 with h | h
    · exact h
    · exact absurd
        (mem_of_nodup_subset_three (succNames_nodup h1) (succNames_subset_three h2) h m hm)
        hms
  refine ⟨?_, ?_, l1, ?_, ?_, ?_⟩
  · intro s
    rw [he]
    rfl
  · rw [a1 m]
    unfold regEntry
    rw [if_neg hms]
  · rw [l1]
    exact hlt
  · rw [i1]
    exact decide_eq_true hlt
  · rw [c1, if_neg (by omega)]

/-- Witness for C10: all three callbacks complete but the `"sitting"` asset
is empty. -/
theorem empty_asset_blocks_ready_witness :
    threeNames.Perm threeNames ∧
    ("sitting" : String) ∈ threeNames ∧
    c10Clips "sitting" = [] ∧
    ((∀ s, onAnimationLoaded "sitting" (c10Clips "sitting") s = s) ∧
    (runLoads c10Clips threeNames initState).actions "sitting" = none ∧
    (runLoads c10Clips threeNames initState).loadedAnimations =
      (succNames c10Clips threeNames).length ∧
    (runLoads c10Clips threeNames initState).loadedAnimations < 3 ∧
    (runLoads c10Clips threeNames initState).isLoading = true ∧
    (runLoads c10Clips threeNames initState).current = none) :=
  ⟨List.Perm.refl threeNames, by decide, by decide,
    empty_asset_blocks_ready c10Clips threeNames (List.Perm.refl threeNames)
      "sitting" (by decide) (by decide)⟩
